import Mathlib

/-!
# lbstats: a shallow embedding of `src/lbstats.cpp`

The program opens one TCP connection, a `Writer` thread stamps and sends fixed-size
packets, a `Reader` thread receives the echoed packets and prints a windowed average of
the round-trip time.

Conventions of the embedding

* C++ `int` and `long` values are `Int`s; every arithmetic result that the machine stores
  is reduced with `wrap32` / `wrap64` (two's complement), a conversion to `size_t` is
  `toSizeT`.
* `std::string` and `char*` arguments are `List Char`.
* The packet buffer is a `List Byte`; the 8-byte load and store through `long* lb` are
  `load64` / `store64`, parameterised by the byte order of the host.
* Everything the operating system decides (name resolution, `socket`, `connect`, the
  values returned by `send` and `recv`, the clock) is an explicit input.
* The two threads share nothing but the descriptor, so each loop is a function of what its
  own I/O calls return; a loop is given a finite list of such observations and is still
  `Running` when the list is used up.
* Of the text that the program prints, the averages of the `Reader` and the usage message
  are kept; the other log lines are left out.
* The integer division by zero that the report of the `Reader` can execute has no defined
  behaviour in C++; it is a separate outcome `DivByZero`, after which nothing is modelled.
-/

namespace Lbstats

/-! ## Machine integers -/

/-- Two's complement reduction of an integer to a 32-bit `int`. -/
def wrap32 (x : Int) : Int := (x + 2 ^ 31) % 2 ^ 32 - 2 ^ 31

/-- Two's complement reduction of an integer to a 64-bit `long`. -/
def wrap64 (x : Int) : Int := (x + 2 ^ 63) % 2 ^ 64 - 2 ^ 63

/-- Conversion of a signed value to `size_t` (unsigned, 64 bits). -/
def toSizeT (x : Int) : Int := x % 2 ^ 64

/-- The value fits a 32-bit `int`. -/
def InInt32 (x : Int) : Prop := -2 ^ 31 ≤ x ∧ x < 2 ^ 31

/-- The value fits a 64-bit `long`. -/
def InInt64 (x : Int) : Prop := -2 ^ 63 ≤ x ∧ x < 2 ^ 63

instance (x : Int) : Decidable (InInt32 x) := by unfold InInt32; infer_instance

instance (x : Int) : Decidable (InInt64 x) := by unfold InInt64; infer_instance

/-- The constant `sizeof (long)`; `main` asserts statically that it is 8. -/
def sizeofLong : Int := 8

/-! ## Strings -/

/-- A `std::string` (or a NUL-terminated `char*`), as its characters. -/
abbrev Str := List Char

/-- `std::string::find(char)`: the index of the first occurrence, `none` for `npos`. -/
def find (s : Str) (c : Char) : Option Nat :=
  match s with
  | [] => none
  | x :: xs => if x = c then some 0 else (find xs c).map (· + 1)

/-- `std::string::substr(pos, n)`, for `pos ≤ size()`. -/
def substr (s : Str) (pos n : Nat) : Str := (s.drop pos).take n

/-- `std::string::substr(pos)`, for `pos ≤ size()`. -/
def substrFrom (s : Str) (pos : Nat) : Str := s.drop pos

/-- `isspace` in the C locale. -/
def isspace (c : Char) : Bool := c.toNat == 32 || (9 ≤ c.toNat && c.toNat ≤ 13)

/-- `isdigit`. -/
def isdigit (c : Char) : Bool := 48 ≤ c.toNat && c.toNat ≤ 57

/-- The value of the leading run of decimal digits, accumulated from `acc`. -/
def digitsValue (acc : Nat) : Str → Nat
  | [] => acc
  | c :: cs => if isdigit c then digitsValue (10 * acc + (c.toNat - 48)) cs else acc

/-- `strtol(s, NULL, 10)`: leading white space, an optional sign, decimal digits; the
result saturates at the bounds of `long`. -/
def strtol (s : Str) : Int :=
  let t := s.dropWhile isspace
  let v : Int :=
    match t with
    | '-' :: r => -(digitsValue 0 r : Int)
    | '+' :: r => (digitsValue 0 r : Int)
    | _ => (digitsValue 0 t : Int)
  max (-2 ^ 63) (min (2 ^ 63 - 1) v)

/-- `std::atoi`, which is `(int) strtol(s, NULL, 10)`. -/
def atoi (s : Str) : Int := wrap32 (strtol s)

/-! ## The host/port split of `main` (lines 207-217) -/

/-- The pair `(host, port)` that `main` derives from its first argument. -/
def splitAddr (addr : Str) : Str × Str :=
  match find addr ':' with
  | none => ("localhost".toList, addr)
  | some colonPos => (substr addr 0 colonPos, substrFrom addr (colonPos + 1))

/-! ## The packet buffer -/

/-- One `char` of the packet buffer. -/
abbrev Byte := Fin 256

/-- The byte order of the host: `*lb` reads and writes the 8 bytes in native order. -/
inductive Endian
  | little
  | big
  deriving DecidableEq, Repr

/-- The `k` low-order bytes of `v`, least significant first. -/
def toLE : Nat → Nat → List Byte
  | 0, _ => []
  | k + 1, v => (Fin.ofNat (v % 256) : Byte) :: toLE k (v / 256)

/-- The number whose little-endian bytes are given. -/
def fromLE : List Byte → Nat
  | [] => 0
  | b :: bs => b.val + 256 * fromLE bs

/-- Bytes in memory order for a value whose bytes are given least significant first (and
back: the operation is its own inverse). -/
def hostOrder (e : Endian) (bs : List Byte) : List Byte :=
  match e with
  | Endian.little => bs
  | Endian.big => bs.reverse

/-- The store `*lb = v` through `long* lb = reinterpret_cast<long*>(buffer)`: bytes
`[0,8)` of the buffer receive the 64-bit value, the rest is untouched. -/
def store64 (e : Endian) (v : Int) (buffer : List Byte) : List Byte :=
  hostOrder e (toLE 8 (v % 2 ^ 64).toNat) ++ buffer.drop 8

/-- The load `*lb`: bytes `[0,8)` of the buffer read as a `long`. -/
def load64 (e : Endian) (buffer : List Byte) : Int :=
  wrap64 (fromLE (hostOrder e (buffer.take 8)) : Nat)

/-- The buffer that the constructor of `Task` allocates: `std::vector<char>(bufSize)`,
value-initialised. -/
def Task.storage (bufSize : Int) : List Byte := List.replicate bufSize.toNat 0

/-! ## Worker loops -/

/-- Where a worker loop is at the end of the I/O it was given. `DivByZero` is the integer
division by zero in the report of the `Reader`, whose behaviour C++ leaves undefined. -/
inductive Status
  | Running
  | Stopped
  | DivByZero
  deriving DecidableEq, Repr

/-! ### Writer::runImpl (lines 119-135) -/

/-- What one iteration of the `Writer` observes: the clock and the result of `send`. -/
structure SendEvent where
  /-- The value `time_ns()` returns. -/
  now : Int
  /-- The value `::send` returns. -/
  writeN : Int
  deriving DecidableEq, Repr

/-- The outcome of one iteration of the loop of the `Writer`, with the buffer after the
stamp. -/
inductive WriterStep
  | cont (buffer : List Byte)
  | stop (buffer : List Byte)
  deriving DecidableEq, Repr

/-- One iteration of `while (true)` in `Writer::runImpl`. -/
def writerIter (e : Endian) (bufSize : Int) (buffer : List Byte) (ev : SendEvent) :
    WriterStep :=
  let buffer1 := store64 e ev.now buffer
  if ev.writeN < 0 then WriterStep.stop buffer1
  else if ev.writeN ≠ bufSize then WriterStep.stop buffer1
  else WriterStep.cont buffer1

/-- The `Writer` at the end of a run. -/
structure WriterRun where
  status : Status
  buffer : List Byte
  /-- The packets handed to `send`, one per call, in order. -/
  sent : List (List Byte)
  deriving DecidableEq, Repr

/-- The loop of `Writer::runImpl` over the successive observations of its iterations. When
they are used up the loop is still `Running`. -/
def writerLoop (e : Endian) (bufSize : Int) (buffer : List Byte) :
    List SendEvent → WriterRun
  | [] => { status := Status.Running, buffer := buffer, sent := [] }
  | ev :: rest =>
    match writerIter e bufSize buffer ev with
    | WriterStep.cont b =>
      let r := writerLoop e bufSize b rest
      { r with sent := b.take bufSize.toNat :: r.sent }
    | WriterStep.stop b =>
      { status := Status.Stopped, buffer := b, sent := [b.take bufSize.toNat] }

/-! ### Reader::runImpl (lines 145-180) -/

/-- The members `packetsN` and `totalNs` of `Reader`. -/
structure ReaderState where
  packetsN : Int
  totalNs : Int
  deriving DecidableEq, Repr

/-- The members as initialised: `packetsN = 0`, `totalNs = 0`. -/
def ReaderState.init : ReaderState := { packetsN := 0, totalNs := 0 }

/-- What one iteration of the `Reader` observes: the result of `recv`, the buffer as
`recv` left it, and the clock. -/
structure RecvEvent where
  /-- The value `::recv` returns. -/
  readN : Int
  /-- The contents of the buffer after the call. -/
  buffer : List Byte
  /-- The value `time_ns()` returns. -/
  now : Int
  deriving DecidableEq, Repr

/-- The outcome of one iteration of the loop of the `Reader`. -/
inductive ReaderStep
  | cont (s : ReaderState) (report : Option Int)
  | stop (s : ReaderState)
  | divByZero
  deriving DecidableEq, Repr

/-- The constant `nsecinus`. -/
def nsecinus : Int := 1000

/-- Lines 158-162: when `packetsN == statsPeriod` the average is printed and both members
are reset. The result is the state after the `if` and the number printed, if any; `none`
is the division `totalNs / packetsN` with `packetsN = 0`. -/
def reportPhase (statsPeriod : Int) (s : ReaderState) : Option (ReaderState × Option Int) :=
  if s.packetsN = statsPeriod then
    if s.packetsN = 0 then none
    else
      some ({ packetsN := 0, totalNs := 0 },
        some (Int.tdiv (wrap64 (Int.tdiv s.totalNs s.packetsN)) nsecinus))
  else some (s, none)

/-- Lines 163-165: `++packetsN; totalNs += elapsed`. -/
def countPhase (s : ReaderState) (elapsed : Int) : ReaderState :=
  { packetsN := wrap32 (s.packetsN + 1), totalNs := wrap64 (s.totalNs + elapsed) }

/-- Lines 158-165: what the `Reader` does with one complete packet whose elapsed time is
`elapsed`. -/
def readerPacket (statsPeriod : Int) (s : ReaderState) (elapsed : Int) : ReaderStep :=
  match reportPhase statsPeriod s with
  | none => ReaderStep.divByZero
  | some (s1, report) => ReaderStep.cont (countPhase s1 elapsed) report

/-- The expression `time_ns() - send_ns` with `send_ns = *lb`. -/
def elapsedOf (e : Endian) (ev : RecvEvent) : Int := wrap64 (ev.now - load64 e ev.buffer)

/-- One iteration of `while (true)` in `Reader::runImpl`. -/
def readerIter (e : Endian) (bufSize statsPeriod : Int) (s : ReaderState) (ev : RecvEvent) :
    ReaderStep :=
  if ev.readN > 0 then
    if bufSize ≠ ev.readN then ReaderStep.stop s
    else readerPacket statsPeriod s (elapsedOf e ev)
  else if ev.readN < 0 then ReaderStep.stop s
  else ReaderStep.stop s

/-- The `Reader` at the end of a run. -/
structure ReaderRun where
  status : Status
  state : ReaderState
  /-- The number of calls of `recv`. -/
  recvCalls : Nat
  /-- One entry per complete packet, in order: the average printed while that packet was
  processed, if one was. -/
  outputs : List (Option Int)
  deriving DecidableEq, Repr

/-- The loop of `Reader::runImpl` over the successive observations of its iterations. When
they are used up the loop is still `Running` (blocked in `recv`). -/
def readerLoop (e : Endian) (bufSize statsPeriod : Int) (s : ReaderState) :
    List RecvEvent → ReaderRun
  | [] => { status := Status.Running, state := s, recvCalls := 0, outputs := [] }
  | ev :: rest =>
    match readerIter e bufSize statsPeriod s ev with
    | ReaderStep.cont s1 report =>
      let r := readerLoop e bufSize statsPeriod s1 rest
      { r with recvCalls := r.recvCalls + 1, outputs := report :: r.outputs }
    | ReaderStep.stop s1 =>
      { status := Status.Stopped, state := s1, recvCalls := 1, outputs := [] }
    | ReaderStep.divByZero =>
      { status := Status.DivByZero, state := s, recvCalls := 1, outputs := [] }

/-- The averages printed during a run, in order. -/
def ReaderRun.reports (r : ReaderRun) : List Int := r.outputs.filterMap id

/-! ## openConnection (lines 41-83) -/

/-- What the operating system answers to `openConnection`. -/
structure Net where
  /-- The return code of `getaddrinfo(host, port, ...)` and whether the result has an
  address (`addrInfo && addrInfo->ai_addr`). -/
  getaddrinfo : Str → Str → Int × Bool
  /-- The descriptor that `socket(AF_INET, SOCK_STREAM, 0)` returns. -/
  socket : Int
  /-- The value that `connect(sockfd, ...)` returns. -/
  connect : Int → Int

/-- The function `openConnection`: the connected descriptor, or `r_error = -1`. -/
def openConnection (net : Net) (host port : Str) : Int :=
  let r_error : Int := -1
  let (e, hasAddr) := net.getaddrinfo host port
  if e = 0 then
    if hasAddr then
      let sockfd := net.socket
      if sockfd < 0 then r_error
      else if net.connect sockfd < 0 then r_error
      else sockfd
    else r_error
  else r_error

/-! ## main (lines 186-250) -/

/-- Everything outside the program that a run of `main` depends on. -/
structure Env where
  endian : Endian
  net : Net
  /-- What the iterations of the `Writer` observe. -/
  sends : List SendEvent
  /-- What the iterations of the `Reader` observe. -/
  recvs : List RecvEvent

/-- The steps of `main` that are visible from outside. -/
inductive Event
  | usage
  | openConnection (host port : Str)
  | startWriter
  | startReader
  | finished
  deriving DecidableEq, Repr

/-- How a run of `main` ends. -/
inductive Outcome
  /-- The value `main` returns. -/
  | exit (code : Int)
  /-- The constructor of `Task` threw (`std::vector<char>(bufSize)` with a negative
  `bufSize`, which converts to a size above `max_size()`); nothing catches it. -/
  | terminated
  /-- The `Reader` divided by zero. -/
  | divByZero
  /-- The function `main` waits in `join()`: a worker is still `Running` at the end of the
  I/O that was given. -/
  | blocked
  deriving DecidableEq, Repr

/-- A run of `main`. -/
structure MainRun where
  outcome : Outcome
  trace : List Event
  deriving DecidableEq, Repr

/-- The constant `MaxArgs` of `enum ARGS`. -/
def MaxArgs : Nat := 4

/-- The function `main`; `argv` includes the program name, `argc` is its length. The
comparison `packetSize < sizeof (long)` converts the `int` to `size_t`. The two `Task`
objects are constructed after the connection is open; their constructor throws for a
negative `bufSize`, and an allocation of a non-negative size is taken to succeed. -/
def main (env : Env) (argv : List Str) : MainRun :=
  if argv.length < MaxArgs then { outcome := Outcome.exit 1, trace := [Event.usage] }
  else
    let addr := argv.getD 1 []
    let packetSize := atoi (argv.getD 2 [])
    let statsPeriod := atoi (argv.getD 3 [])
    let host := (splitAddr addr).1
    let port := (splitAddr addr).2
    if toSizeT packetSize < toSizeT sizeofLong then { outcome := Outcome.exit 2, trace := [] }
    else
      let sockfd := openConnection env.net host port
      if sockfd < 0 then
        { outcome := Outcome.exit 3, trace := [Event.openConnection host port] }
      else if packetSize < 0 then
        { outcome := Outcome.terminated, trace := [Event.openConnection host port] }
      else
        let w := writerLoop env.endian packetSize (Task.storage packetSize) env.sends
        let r := readerLoop env.endian packetSize statsPeriod ReaderState.init env.recvs
        let started := [Event.openConnection host port, Event.startWriter, Event.startReader]
        if r.status = Status.DivByZero then { outcome := Outcome.divByZero, trace := started }
        else if w.status = Status.Stopped ∧ r.status = Status.Stopped then
          { outcome := Outcome.exit 0, trace := started ++ [Event.finished] }
        else { outcome := Outcome.blocked, trace := started }

/-! ## Concrete environments -/

/-- A network in which name resolution fails. -/
def unresolvedNet : Net :=
  { getaddrinfo := fun _ _ => (-2, false), socket := 3, connect := fun _ => 0 }

/-- A network in which the connection is established on descriptor 3. -/
def connectedNet : Net :=
  { getaddrinfo := fun _ _ => (0, true), socket := 3, connect := fun _ => 0 }

/-- An environment without a reachable peer. -/
def unresolvedEnv : Env :=
  { endian := Endian.little, net := unresolvedNet, sends := [], recvs := [] }

/-- An environment whose peer echoes one 64-byte packet (stamped 1000, read at 8000) and
then closes: the second `recv` returns 0 and the second `send` fails. -/
def closingEnv : Env :=
  { endian := Endian.little, net := connectedNet,
    sends := [⟨1000, 64⟩, ⟨1200, -1⟩],
    recvs := [⟨64, store64 Endian.little 1000 (Task.storage 64), 8000⟩, ⟨0, Task.storage 64, 9000⟩] }

/-- A complete 64-byte packet on a little-endian host, stamped at `sent` and read at
`received`. -/
def echoed (sent received : Int) : RecvEvent :=
  { readN := 64, buffer := store64 Endian.little sent (Task.storage 64), now := received }

/-- The sum of `k` consecutive elements starting at index `a`: for a list of elapsed times,
the total of the packets `a+1 .. a+k`, counting packets from 1. -/
def windowSum (es : List Int) (a k : Nat) : Int := ((es.drop a).take k).sum

/-- The elapsed times of the packets of a list of observations, in order. -/
def elapsedTimes (e : Endian) (evs : List RecvEvent) : List Int := evs.map (elapsedOf e)

/-- No 64-bit overflow: for every packet, the total of the elapsed times from the first
packet of its window up to it fits a `long`. Windows are the consecutive runs of `P`
packets starting at the first one. -/
def NoOverflow (P : Nat) (es : List Int) : Prop :=
  ∀ i, i < es.length → InInt64 (windowSum es (i - i % P) (i % P + 1))

/-- The average of the `P` elapsed times starting at index `a`, in microseconds:
`(sum / P) / 1000`, both divisions truncating as in C++. -/
def windowAverage (P : Nat) (es : List Int) (a : Nat) : Int :=
  ((windowSum es a P).tdiv P).tdiv 1000

/-- What the claim expects the `Reader` to print while it processes the packet of index
`i` (from 0): the average of the `P` packets before it when `i` is a positive multiple of
`P`, nothing otherwise. -/
def expectedOutput (P : Nat) (es : List Int) (i : Nat) : Option Int :=
  if 0 < i ∧ i % P = 0 then some (windowAverage P es (i - P)) else none

/-- The buffer that a step of the `Writer` leaves. -/
def WriterStep.buffer : WriterStep → List Byte
  | WriterStep.cont b => b
  | WriterStep.stop b => b

/-! ## Lemmas on the split -/

theorem find_eq_none_iff (s : Str) (c : Char) : find s c = none ↔ c ∉ s := by
  induction s with
  | nil => simp [find]
  | cons x xs ih =>
    by_cases h : x = c
    · simp [find, h]
    · have h' : ¬ c = x := fun e => h e.symm
      simp [find, h, h', ih]

theorem find_some_spec (s : Str) (c : Char) (i : Nat) (h : find s c = some i) :
    c ∉ s.take i ∧ s.take i ++ c :: s.drop (i + 1) = s := by
  induction s generalizing i with
  | nil => simp [find] at h
  | cons x xs ih =>
    by_cases hx : x = c
    · simp [find, hx] at h
      subst h
      simp [hx]
    · simp only [find, hx, if_false, Option.map_eq_some'] at h
      obtain ⟨j, hj, rfl⟩ := h
      have := ih j hj
      have h' : ¬ c = x := fun e => hx e.symm
      simp [h', this.1, this.2]

theorem splitAddr_of_not_mem (s : Str) (h : ':' ∉ s) :
    splitAddr s = ("localhost".toList, s) := by
  have := (find_eq_none_iff s ':').2 h
  simp [splitAddr, this]

theorem splitAddr_of_mem (s : Str) (h : ':' ∈ s) :
    ':' ∉ (splitAddr s).1 ∧ (splitAddr s).1 ++ ':' :: (splitAddr s).2 = s := by
  cases hf : find s ':' with
  | none => exact absurd h ((find_eq_none_iff s ':').1 hf)
  | some i =>
    have := find_some_spec s ':' i hf
    simpa [splitAddr, hf, substr, substrFrom] using this

/-- A string has at most one decomposition around its first occurrence of `c`. -/
theorem first_occurrence_unique (c : Char) (a a' b b' : Str) (ha : c ∉ a) (ha' : c ∉ a')
    (h : a ++ c :: b = a' ++ c :: b') : a = a' ∧ b = b' := by
  induction a generalizing a' with
  | nil =>
    cases a' with
    | nil => simpa using h
    | cons y ys =>
      simp only [List.nil_append, List.cons_append, List.cons.injEq] at h
      exact absurd (by simp [h.1]) ha'
  | cons x xs ih =>
    cases a' with
    | nil =>
      simp only [List.nil_append, List.cons_append, List.cons.injEq] at h
      exact absurd (by simp [h.1]) ha
    | cons y ys =>
      simp only [List.cons_append, List.cons.injEq] at h
      have hx : c ∉ xs := fun m => ha (List.mem_cons_of_mem _ m)
      have hy : c ∉ ys := fun m => ha' (List.mem_cons_of_mem _ m)
      obtain ⟨r1, r2⟩ := ih ys hx hy h.2
      exact ⟨by rw [h.1, r1], r2⟩

/-! ## C5, C6: the host/port split -/

/-- C5: for every address `s`: when `s` has no colon, `host = "localhost"` and `port = s`;
otherwise `host` has no colon and `host ++ ":" ++ port = s`, so `host` is what precedes the
first colon and `port` everything after it, later colons included. -/
theorem splitAddr_spec (s : Str) :
    if ':' ∈ s then
      ':' ∉ (splitAddr s).1 ∧ (splitAddr s).1 ++ [':'] ++ (splitAddr s).2 = s
    else (splitAddr s).1 = "localhost".toList ∧ (splitAddr s).2 = s := by
  split
  · next h => simpa using splitAddr_of_mem s h
  · next h => simp [splitAddr_of_not_mem s h]

/-- C6, as stated, fails: the port derived from `"host:"` is empty, and so is the port
derived from the empty address. -/
theorem port_nonempty_counterexample :
    (splitAddr "host:".toList).2 = [] ∧ (splitAddr "".toList).2 = [] := by
  decide

/-- C6, amended: the port is non-empty exactly when the address is non-empty and is not a
colon-free string followed by a single final colon. -/
theorem port_nonempty_iff (s : Str) :
    (splitAddr s).2 ≠ [] ↔ s ≠ [] ∧ ¬ ∃ h : Str, ':' ∉ h ∧ s = h ++ [':'] := by
  by_cases hm : ':' ∈ s
  · obtain ⟨h1, h2⟩ := splitAddr_of_mem s hm
    have hne : s ≠ [] := by
      intro h0
      rw [h0] at hm
      simp at hm
    constructor
    · intro hp
      refine ⟨hne, ?_⟩
      rintro ⟨h, hh, hs⟩
      have hs' : (splitAddr s).1 ++ ':' :: (splitAddr s).2 = h ++ ':' :: [] := by
        rw [h2]
        simpa using hs
      exact hp (first_occurrence_unique ':' _ _ _ _ h1 hh hs').2
    · rintro ⟨_, hex⟩ hp
      apply hex
      refine ⟨(splitAddr s).1, h1, ?_⟩
      rw [hp] at h2
      simpa using h2.symm
  · rw [splitAddr_of_not_mem s hm]
    constructor
    · intro hp
      refine ⟨hp, ?_⟩
      rintro ⟨h, _, hs⟩
      apply hm
      rw [hs]
      simp
    · intro hp
      exact hp.1

/-! ## Lemmas on machine integers and on the buffer -/

theorem wrap64_of_in (x : Int) (h : InInt64 x) : wrap64 x = x := by
  unfold InInt64 at h
  unfold wrap64
  omega

theorem wrap64_in (x : Int) : InInt64 (wrap64 x) := by
  unfold InInt64 wrap64
  omega

theorem toLE_length (k v : Nat) : (toLE k v).length = k := by
  induction k generalizing v with
  | zero => rfl
  | succ k ih => simp [toLE, ih]

theorem fromLE_toLE (k v : Nat) : fromLE (toLE k v) = v % 256 ^ k := by
  induction k generalizing v with
  | zero => simp [toLE, fromLE, Nat.mod_one]
  | succ k ih =>
    have hb : ((Fin.ofNat (v % 256) : Byte) : Nat) = v % 256 := by
      simp [Fin.ofNat]
    simp only [toLE, fromLE, ih, hb]
    rw [pow_succ, Nat.mul_comm (256 ^ k) 256, Nat.mod_mul]

theorem hostOrder_length (e : Endian) (bs : List Byte) : (hostOrder e bs).length = bs.length := by
  cases e <;> simp [hostOrder]

theorem hostOrder_hostOrder (e : Endian) (bs : List Byte) : hostOrder e (hostOrder e bs) = bs := by
  cases e <;> simp [hostOrder]

theorem store64_take (e : Endian) (v : Int) (buffer : List Byte) :
    (store64 e v buffer).take 8 = hostOrder e (toLE 8 (v % 2 ^ 64).toNat) := by
  have hl : (hostOrder e (toLE 8 (v % 2 ^ 64).toNat)).length = 8 := by
    rw [hostOrder_length, toLE_length]
  unfold store64
  rw [List.take_append_of_le_length (by omega)]
  exact List.take_of_length_le (by omega)

theorem store64_drop (e : Endian) (v : Int) (buffer : List Byte) :
    (store64 e v buffer).drop 8 = buffer.drop 8 := by
  have hl : (hostOrder e (toLE 8 (v % 2 ^ 64).toNat)).length = 8 := by
    rw [hostOrder_length, toLE_length]
  unfold store64
  rw [List.drop_append_of_le_length (by omega), List.drop_of_length_le (by omega)]
  simp

theorem store64_length (e : Endian) (v : Int) (buffer : List Byte) (h : 8 ≤ buffer.length) :
    (store64 e v buffer).length = buffer.length := by
  unfold store64
  rw [List.length_append, hostOrder_length, toLE_length, List.length_drop]
  omega

theorem store64_getElem? (e : Endian) (v : Int) (buffer : List Byte) (i : Nat) (h : 8 ≤ i) :
    (store64 e v buffer)[i]? = buffer[i]? := by
  obtain ⟨j, rfl⟩ : ∃ j, i = 8 + j := ⟨i - 8, by omega⟩
  rw [← List.getElem?_drop, ← List.getElem?_drop, store64_drop]

theorem load64_store64 (e : Endian) (v : Int) (buffer : List Byte) (h : InInt64 v) :
    load64 e (store64 e v buffer) = v := by
  unfold load64
  rw [store64_take, hostOrder_hostOrder, fromLE_toLE]
  unfold InInt64 at h
  unfold wrap64
  have h0 : (0 : Int) ≤ v % 2 ^ 64 := Int.emod_nonneg _ (by norm_num)
  have h1 : v % 2 ^ 64 < 2 ^ 64 := Int.emod_lt_of_pos _ (by norm_num)
  have h2 : (((v % 2 ^ 64).toNat % 256 ^ 8 : Nat) : Int) = v % 2 ^ 64 := by
    rw [Nat.mod_eq_of_lt (by omega)]
    exact Int.toNat_of_nonneg h0
  rw [h2]
  omega

theorem writerIter_buffer (e : Endian) (bufSize : Int) (buffer : List Byte) (ev : SendEvent) :
    (writerIter e bufSize buffer ev).buffer = store64 e ev.now buffer := by
  unfold writerIter
  simp only []
  split
  · rfl
  · split <;> rfl

/-! ## C8: the timestamp round trip -/

/-- C8: let `packetSize ≥ 8`, a buffer of `packetSize` bytes and a 64-bit value `t` that
the clock gives the `Writer`. The stamp of that iteration keeps the length of the buffer
and every byte at an index `≥ 8`; the `Reader` loads exactly `t` from a copy of the
stamped packet, so the elapsed time of the packet is the 64-bit difference `now - t`
(equal to the integer `now - t` when that fits a `long`), and it is the value that the
iteration of the `Reader` counts. -/
theorem timestamp_round_trip (e : Endian) (packetSize : Int) (buffer : List Byte)
    (t writeN now statsPeriod : Int) (s : ReaderState)
    (hsize : 8 ≤ packetSize) (hlen : (buffer.length : Int) = packetSize) (ht : InInt64 t) :
    (writerIter e packetSize buffer ⟨t, writeN⟩).buffer.length = buffer.length ∧
    (∀ i, 8 ≤ i → (writerIter e packetSize buffer ⟨t, writeN⟩).buffer[i]? = buffer[i]?) ∧
    load64 e (writerIter e packetSize buffer ⟨t, writeN⟩).buffer = t ∧
    elapsedOf e ⟨packetSize, (writerIter e packetSize buffer ⟨t, writeN⟩).buffer, now⟩
      = wrap64 (now - t) ∧
    (InInt64 (now - t) →
      elapsedOf e ⟨packetSize, (writerIter e packetSize buffer ⟨t, writeN⟩).buffer, now⟩
        = now - t) ∧
    readerIter e packetSize statsPeriod s
        ⟨packetSize, (writerIter e packetSize buffer ⟨t, writeN⟩).buffer, now⟩
      = readerPacket statsPeriod s (wrap64 (now - t)) := by
  have hb := writerIter_buffer e packetSize buffer ⟨t, writeN⟩
  simp only [] at hb
  have hload := load64_store64 e t buffer ht
  have hel : elapsedOf e ⟨packetSize, store64 e t buffer, now⟩ = wrap64 (now - t) := by
    simp [elapsedOf, hload]
  rw [hb]
  refine ⟨store64_length e t buffer (by omega), fun i hi => store64_getElem? e t buffer i hi,
    hload, hel, fun hin => by rw [hel, wrap64_of_in _ hin], ?_⟩
  have hpos : packetSize > 0 := by omega
  simp [readerIter, hpos, hel]

/-- C8 at a concrete packet: 16 bytes, big-endian host, stamp 123456789, read at
123460000. -/
theorem timestamp_round_trip_witness :
    load64 Endian.big
      (writerIter Endian.big 16 (Task.storage 16) ⟨123456789, 16⟩).buffer = 123456789 :=
  (timestamp_round_trip Endian.big 16 (Task.storage 16) 123456789 16 123460000 10
    ReaderState.init (by decide) (by decide) (by decide)).2.2.1

/-! ## Lemmas on single iterations -/

theorem readerIter_of_eq (e : Endian) (bufSize statsPeriod : Int) (s : ReaderState)
    (ev : RecvEvent) (hpos : 0 < bufSize) (h : ev.readN = bufSize) :
    readerIter e bufSize statsPeriod s ev = readerPacket statsPeriod s (elapsedOf e ev) := by
  unfold readerIter
  rw [if_pos (by omega), if_neg (by simp [h])]

theorem reportPhase_eq_none_iff (statsPeriod : Int) (s : ReaderState) :
    reportPhase statsPeriod s = none ↔ s.packetsN = statsPeriod ∧ statsPeriod = 0 := by
  unfold reportPhase
  by_cases h1 : s.packetsN = statsPeriod
  · by_cases h2 : s.packetsN = 0
    · simp [h1, h2]
    · simp [h1, h2]
  · simp [h1]

theorem readerPacket_divByZero_iff (statsPeriod : Int) (s : ReaderState) (elapsed : Int) :
    readerPacket statsPeriod s elapsed = ReaderStep.divByZero ↔
      s.packetsN = statsPeriod ∧ statsPeriod = 0 := by
  rw [← reportPhase_eq_none_iff]
  unfold readerPacket
  cases h : reportPhase statsPeriod s with
  | none => simp
  | some p => simp

theorem readerPacket_ne_stop (statsPeriod : Int) (s s1 : ReaderState) (elapsed : Int) :
    readerPacket statsPeriod s elapsed ≠ ReaderStep.stop s1 := by
  unfold readerPacket
  cases h : reportPhase statsPeriod s with
  | none => simp
  | some p => simp

theorem readerLoop_status_ne_divByZero (e : Endian) (bufSize statsPeriod : Int)
    (h : statsPeriod ≠ 0) (evs : List RecvEvent) (s : ReaderState) :
    (readerLoop e bufSize statsPeriod s evs).status ≠ Status.DivByZero := by
  induction evs generalizing s with
  | nil => simp [readerLoop]
  | cons ev rest ih =>
    unfold readerLoop
    cases hstep : readerIter e bufSize statsPeriod s ev with
    | cont s1 r => simpa using ih s1
    | stop s1 => simp
    | divByZero =>
      exfalso
      unfold readerIter at hstep
      have hp : ∀ el, readerPacket statsPeriod s el ≠ ReaderStep.divByZero := by
        intro el hc
        exact h ((readerPacket_divByZero_iff statsPeriod s el).1 hc).2
      split at hstep
      · split at hstep
        · simp at hstep
        · exact hp _ hstep
      · split at hstep <;> simp at hstep

/-! ## Lemmas on the first iteration of a loop -/

/-- C4, as stated, fails: with `statsPeriod = 1` and one packet counted, the next complete
packet (stamped 1000, read at 8000) makes the `Reader` print the average 5 and end the
iteration with `packetsN = 1` and `totalNs = 7000`, not with both at zero. -/
theorem counters_after_report_counterexample :
    readerIter Endian.little 8 1 { packetsN := 1, totalNs := 5000 }
        ⟨8, store64 Endian.little 1000 (Task.storage 8), 8000⟩
      = ReaderStep.cont { packetsN := 1, totalNs := 7000 } (some 5) ∧
    ({ packetsN := 1, totalNs := 7000 } : ReaderState) ≠ { packetsN := 0, totalNs := 0 } := by
  decide

/-- C4, amended: when the iteration for a complete packet prints a report, both counters
are zero right after the report (the state after lines 158-162), and the same iteration
then counts the packet that triggered it: at its end `packetsN = 1` and `totalNs` is the
elapsed time of that packet. -/
theorem counters_after_report (e : Endian) (bufSize statsPeriod : Int) (s s1 : ReaderState)
    (ev : RecvEvent) (v : Int)
    (h : readerIter e bufSize statsPeriod s ev = ReaderStep.cont s1 (some v)) :
    reportPhase statsPeriod s = some ({ packetsN := 0, totalNs := 0 }, some v) ∧
    s1 = { packetsN := 1, totalNs := elapsedOf e ev } := by
  have hp : readerPacket statsPeriod s (elapsedOf e ev) = ReaderStep.cont s1 (some v) := by
    unfold readerIter at h
    split at h
    · split at h
      · simp at h
      · exact h
    · split at h <;> simp at h
  unfold readerPacket at hp
  unfold reportPhase at hp ⊢
  by_cases h1 : s.packetsN = statsPeriod
  · by_cases h2 : s.packetsN = 0
    · rw [if_pos h1, if_pos h2] at hp
      simp at hp
    · rw [if_pos h1, if_neg h2] at hp ⊢
      simp only [ReaderStep.cont.injEq, Option.some.injEq] at hp
      obtain ⟨hs, hv⟩ := hp
      refine ⟨by rw [hv], ?_⟩
      rw [← hs]
      have hw := wrap64_of_in _ (wrap64_in (ev.now - load64 e ev.buffer))
      simp only [countPhase, elapsedOf, zero_add, hw]
      rfl
  · rw [if_neg h1] at hp
    simp at hp

/-- C4 amended, at the concrete iteration of the counterexample. -/
theorem counters_after_report_witness :
    reportPhase 1 { packetsN := 1, totalNs := 5000 }
        = some ({ packetsN := 0, totalNs := 0 }, some 5) ∧
    ({ packetsN := 1, totalNs := 7000 } : ReaderState)
        = { packetsN := 1,
            totalNs := elapsedOf Endian.little
              ⟨8, store64 Endian.little 1000 (Task.storage 8), 8000⟩ } :=
  counters_after_report Endian.little 8 1 { packetsN := 1, totalNs := 5000 }
    { packetsN := 1, totalNs := 7000 } ⟨8, store64 Endian.little 1000 (Task.storage 8), 8000⟩ 5
    (by decide)

/-! ## Lemmas on main -/

theorem atoi_in (a : Str) : InInt32 (atoi a) := by
  unfold atoi InInt32 wrap32
  omega

/-- The comparison `packetSize < sizeof (long)` is made in `size_t`: for an `int` it holds
exactly for the values `0 .. 7`. -/
theorem size_check_iff (x : Int) (h : InInt32 x) :
    toSizeT x < toSizeT sizeofLong ↔ 0 ≤ x ∧ x < 8 := by
  unfold InInt32 at h
  unfold toSizeT sizeofLong
  omega

theorem main_of_few (env : Env) (argv : List Str) (h : argv.length < 4) :
    main env argv = { outcome := Outcome.exit 1, trace := [Event.usage] } := by
  unfold main MaxArgs
  rw [if_pos h]

theorem main_of_small (env : Env) (argv : List Str) (h : 4 ≤ argv.length)
    (hs : toSizeT (atoi (argv.getD 2 [])) < toSizeT sizeofLong) :
    main env argv = { outcome := Outcome.exit 2, trace := [] } := by
  unfold main MaxArgs
  rw [if_neg (by omega)]
  simp only []
  rw [if_pos hs]

theorem main_of_accepted (env : Env) (argv : List Str) (h : 4 ≤ argv.length)
    (hs : ¬ toSizeT (atoi (argv.getD 2 [])) < toSizeT sizeofLong) :
    main env argv =
      if openConnection env.net (splitAddr (argv.getD 1 [])).1 (splitAddr (argv.getD 1 [])).2 < 0
      then
        { outcome := Outcome.exit 3,
          trace := [Event.openConnection (splitAddr (argv.getD 1 [])).1
            (splitAddr (argv.getD 1 [])).2] }
      else if atoi (argv.getD 2 []) < 0 then
        { outcome := Outcome.terminated,
          trace := [Event.openConnection (splitAddr (argv.getD 1 [])).1
            (splitAddr (argv.getD 1 [])).2] }
      else if (readerLoop env.endian (atoi (argv.getD 2 [])) (atoi (argv.getD 3 []))
          ReaderState.init env.recvs).status = Status.DivByZero then
        { outcome := Outcome.divByZero,
          trace := [Event.openConnection (splitAddr (argv.getD 1 [])).1
            (splitAddr (argv.getD 1 [])).2, Event.startWriter, Event.startReader] }
      else if (writerLoop env.endian (atoi (argv.getD 2 []))
            (Task.storage (atoi (argv.getD 2 []))) env.sends).status = Status.Stopped ∧
          (readerLoop env.endian (atoi (argv.getD 2 [])) (atoi (argv.getD 3 []))
            ReaderState.init env.recvs).status = Status.Stopped then
        { outcome := Outcome.exit 0,
          trace := [Event.openConnection (splitAddr (argv.getD 1 [])).1
            (splitAddr (argv.getD 1 [])).2, Event.startWriter, Event.startReader,
            Event.finished] }
      else
        { outcome := Outcome.blocked,
          trace := [Event.openConnection (splitAddr (argv.getD 1 [])).1
            (splitAddr (argv.getD 1 [])).2, Event.startWriter, Event.startReader] } := by
  unfold main MaxArgs
  rw [if_neg (by omega)]
  simp only []
  rw [if_neg hs]
  rfl

/-- With enough arguments `main` returns 2 exactly for the parsed packet sizes `0 .. 7`, and
then without any call of `openConnection`; for every other parsed value, the negative ones
included, `openConnection` is called. -/
theorem main_rejects_iff (env : Env) (argv : List Str) (h : 4 ≤ argv.length) :
    ((main env argv).outcome = Outcome.exit 2 ↔
      0 ≤ atoi (argv.getD 2 []) ∧ atoi (argv.getD 2 []) < 8) ∧
    (0 ≤ atoi (argv.getD 2 []) ∧ atoi (argv.getD 2 []) < 8 → (main env argv).trace = []) ∧
    (¬ (0 ≤ atoi (argv.getD 2 []) ∧ atoi (argv.getD 2 []) < 8) →
      Event.openConnection (splitAddr (argv.getD 1 [])).1 (splitAddr (argv.getD 1 [])).2
        ∈ (main env argv).trace) := by
  have hiff := size_check_iff (atoi (argv.getD 2 [])) (atoi_in _)
  by_cases hs : toSizeT (atoi (argv.getD 2 [])) < toSizeT sizeofLong
  · have hr := hiff.1 hs
    rw [main_of_small env argv h hs]
    exact ⟨⟨fun _ => hr, fun _ => rfl⟩, fun _ => rfl, fun x => absurd hr x⟩
  · have hr : ¬ (0 ≤ atoi (argv.getD 2 []) ∧ atoi (argv.getD 2 []) < 8) := fun x => hs (hiff.2 x)
    rw [main_of_accepted env argv h hs]
    refine ⟨?_, fun x => absurd x hr, fun _ => ?_⟩
    · constructor
      · intro ho
        split_ifs at ho <;> simp at ho
      · intro x
        exact absurd x hr
    · split_ifs <;> simp

/-! ## C1: the packet size check -/

/-- C1 fails on the code at the arguments `9000 -1 10`: the parsed packet size `-1` is less
than 8, yet `main` does not return 2 and it calls `openConnection` (for `localhost`, port
`9000`), whatever the environment answers. -/
theorem negative_packetSize_passes_check (env : Env) :
    atoi "-1".toList = -1 ∧
    (main env ["lbstats".toList, "9000".toList, "-1".toList, "10".toList]).outcome
      ≠ Outcome.exit 2 ∧
    Event.openConnection "localhost".toList "9000".toList
      ∈ (main env ["lbstats".toList, "9000".toList, "-1".toList, "10".toList]).trace := by
  have h := main_rejects_iff env ["lbstats".toList, "9000".toList, "-1".toList, "10".toList]
    (by decide)
  have ha : atoi "-1".toList = -1 := by decide
  have hn : ¬ (0 ≤ atoi (["lbstats".toList, "9000".toList, "-1".toList, "10".toList].getD 2 [])
      ∧ atoi (["lbstats".toList, "9000".toList, "-1".toList, "10".toList].getD 2 []) < 8) := by
    decide
  refine ⟨ha, fun ho => hn (h.1.1 ho), ?_⟩
  have hsplit : splitAddr (["lbstats".toList, "9000".toList, "-1".toList, "10".toList].getD 1 [])
      = ("localhost".toList, "9000".toList) := by decide
  have h3 := h.2.2 hn
  rw [hsplit] at h3
  exact h3

/-! ## C9: the exit codes of main -/

/-- C9: with fewer than four entries in `argv`, `main` returns 1 and does nothing but print
the usage. With at least four and a packet size that passes the check, a negative result of
`openConnection` makes `main` return 3 with no worker started. And `main` returns 0 only
when `openConnection` gave a descriptor, both workers were started, and both loops have
`Stopped`. -/
theorem main_exit_codes (env : Env) (argv : List Str) :
    (argv.length < 4 → main env argv = { outcome := Outcome.exit 1, trace := [Event.usage] }) ∧
    (4 ≤ argv.length → ¬ toSizeT (atoi (argv.getD 2 [])) < toSizeT sizeofLong →
      openConnection env.net (splitAddr (argv.getD 1 [])).1 (splitAddr (argv.getD 1 [])).2 < 0 →
      main env argv =
        { outcome := Outcome.exit 3,
          trace := [Event.openConnection (splitAddr (argv.getD 1 [])).1
            (splitAddr (argv.getD 1 [])).2] }) ∧
    ((main env argv).outcome = Outcome.exit 0 →
      4 ≤ argv.length ∧
      0 ≤ openConnection env.net (splitAddr (argv.getD 1 [])).1 (splitAddr (argv.getD 1 [])).2 ∧
      (writerLoop env.endian (atoi (argv.getD 2 [])) (Task.storage (atoi (argv.getD 2 [])))
        env.sends).status = Status.Stopped ∧
      (readerLoop env.endian (atoi (argv.getD 2 [])) (atoi (argv.getD 3 [])) ReaderState.init
        env.recvs).status = Status.Stopped ∧
      (main env argv).trace =
        [Event.openConnection (splitAddr (argv.getD 1 [])).1 (splitAddr (argv.getD 1 [])).2,
          Event.startWriter, Event.startReader, Event.finished]) := by
  refine ⟨main_of_few env argv, ?_, ?_⟩
  · intro h hs hc
    rw [main_of_accepted env argv h hs, if_pos hc]
  · intro ho
    by_cases h : argv.length < 4
    · rw [main_of_few env argv h] at ho
      simp at ho
    · have h4 : 4 ≤ argv.length := by omega
      by_cases hs : toSizeT (atoi (argv.getD 2 [])) < toSizeT sizeofLong
      · rw [main_of_small env argv h4 hs] at ho
        simp at ho
      · rw [main_of_accepted env argv h4 hs] at ho ⊢
        split_ifs at ho ⊢ with c1 c2 c3 c4
        all_goals first
          | (exfalso; simp at ho; done)
          | exact ⟨h4, by omega, c4.1, c4.2, rfl⟩

/-- C9 at concrete runs: no arguments; a host that does not resolve; a peer that echoes one
packet and closes. -/
theorem main_exit_codes_witness :
    main unresolvedEnv ["lbstats".toList]
      = { outcome := Outcome.exit 1, trace := [Event.usage] } ∧
    main unresolvedEnv ["lbstats".toList, "host:80".toList, "64".toList, "10".toList]
      = { outcome := Outcome.exit 3,
          trace := [Event.openConnection "host".toList "80".toList] } ∧
    (main closingEnv ["lbstats".toList, "host:80".toList, "64".toList, "10".toList]).trace
      = [Event.openConnection "host".toList "80".toList, Event.startWriter, Event.startReader,
          Event.finished] :=
  ⟨(main_exit_codes unresolvedEnv ["lbstats".toList]).1 (by decide),
    (main_exit_codes unresolvedEnv
      ["lbstats".toList, "host:80".toList, "64".toList, "10".toList]).2.1
      (by decide) (by decide) (by decide),
    ((main_exit_codes closingEnv
      ["lbstats".toList, "host:80".toList, "64".toList, "10".toList]).2.2
      (by decide)).2.2.2.2⟩

/-! ## C10: the divisor of the average -/

/-- C10: an iteration for a complete packet divides by zero exactly when the report branch
is taken (`packetsN = statsPeriod`) with `statsPeriod = 0`. So a run of the `Reader` from
its initial state can reach the division by zero if and only if `statsPeriod = 0`; with
`statsPeriod = 0` the first complete packet already does, and `main` lets that value
through: with a packet size of at least 8 and a connection, the run of `main` ends in the
division by zero as soon as one complete packet arrives. -/
theorem zero_divisor_iff (statsPeriod : Int) :
    (∀ (s : ReaderState) (elapsed : Int),
      readerPacket statsPeriod s elapsed = ReaderStep.divByZero ↔
        s.packetsN = statsPeriod ∧ statsPeriod = 0) ∧
    ((∃ (e : Endian) (bufSize : Int) (evs : List RecvEvent),
        (readerLoop e bufSize statsPeriod ReaderState.init evs).status = Status.DivByZero) ↔
      statsPeriod = 0) ∧
    (statsPeriod = 0 →
      ∀ (e : Endian) (bufSize : Int) (ev : RecvEvent) (rest : List RecvEvent),
        0 < bufSize → ev.readN = bufSize →
        readerLoop e bufSize statsPeriod ReaderState.init (ev :: rest)
          = { status := Status.DivByZero, state := ReaderState.init, recvCalls := 1,
              outputs := [] }) ∧
    (statsPeriod = 0 →
      ∀ (env : Env) (argv : List Str) (ev : RecvEvent) (rest : List RecvEvent),
        4 ≤ argv.length → atoi (argv.getD 3 []) = statsPeriod → 8 ≤ atoi (argv.getD 2 []) →
        0 ≤ openConnection env.net (splitAddr (argv.getD 1 [])).1
          (splitAddr (argv.getD 1 [])).2 →
        env.recvs = ev :: rest → ev.readN = atoi (argv.getD 2 []) →
        (main env argv).outcome = Outcome.divByZero) := by
  have hfirst : statsPeriod = 0 →
      ∀ (e : Endian) (bufSize : Int) (ev : RecvEvent) (rest : List RecvEvent),
        0 < bufSize → ev.readN = bufSize →
        readerLoop e bufSize statsPeriod ReaderState.init (ev :: rest)
          = { status := Status.DivByZero, state := ReaderState.init, recvCalls := 1,
              outputs := [] } := by
    intro h0 e bufSize ev rest hpos heq
    have hd : readerPacket statsPeriod ReaderState.init (elapsedOf e ev)
        = ReaderStep.divByZero :=
      (readerPacket_divByZero_iff statsPeriod ReaderState.init _).2
        ⟨by rw [h0]; rfl, h0⟩
    unfold readerLoop
    rw [readerIter_of_eq e bufSize statsPeriod _ ev hpos heq, hd]
  refine ⟨readerPacket_divByZero_iff statsPeriod, ?_, hfirst, ?_⟩
  · constructor
    · rintro ⟨e, bufSize, evs, h⟩
      by_contra hne
      exact readerLoop_status_ne_divByZero e bufSize statsPeriod hne evs _ h
    · intro h0
      refine ⟨Endian.little, 8, [⟨8, [], 0⟩], ?_⟩
      rw [hfirst h0 Endian.little 8 ⟨8, [], 0⟩ [] (by decide) rfl]
  · intro h0 env argv ev rest h4 hP hsize hconn hrecvs hfull
    have hs : ¬ toSizeT (atoi (argv.getD 2 [])) < toSizeT sizeofLong := by
      rw [size_check_iff _ (atoi_in _)]
      omega
    rw [main_of_accepted env argv h4 hs, if_neg (by omega), if_neg (by omega), hrecvs, hP,
      hfirst h0 env.endian _ ev rest (by omega) hfull]
    simp

/-- C10 at a concrete run: `lbstats host:80 64 0` against a peer that echoes one packet. -/
theorem zero_divisor_iff_witness :
    (main closingEnv ["lbstats".toList, "host:80".toList, "64".toList, "0".toList]).outcome
      = Outcome.divByZero :=
  (zero_divisor_iff 0).2.2.2 rfl closingEnv
    ["lbstats".toList, "host:80".toList, "64".toList, "0".toList]
    ⟨64, store64 Endian.little 1000 (Task.storage 64), 8000⟩ [⟨0, Task.storage 64, 9000⟩]
    (by decide) (by decide) (by decide) (by decide) rfl (by decide)

/-! ## Lemmas on the loop of the Reader -/

theorem tdiv_in (x P : Int) (hx : InInt64 x) (hP : 1 ≤ P) : InInt64 (x.tdiv P) := by
  unfold InInt64 at hx ⊢
  rcases le_or_lt 0 x with h0 | h0
  · rw [Int.tdiv_eq_ediv h0 (by omega)]
    have h1 : 0 ≤ x / P := Int.ediv_nonneg h0 (by omega)
    have h2 : x / P ≤ x := Int.ediv_le_self _ h0
    omega
  · have hn : x.tdiv P = -((-x).tdiv P) := by rw [Int.neg_tdiv, neg_neg]
    rw [hn, Int.tdiv_eq_ediv (by omega) (by omega)]
    have h1 : 0 ≤ (-x) / P := Int.ediv_nonneg (by omega) (by omega)
    have h2 : (-x) / P ≤ -x := Int.ediv_le_self _ (by omega)
    omega

theorem mod_succ_of_eq (P m : Nat) (h : m % P + 1 = P) : (m + 1) % P = 0 := by
  rw [← Nat.mod_add_mod, h, Nat.mod_self]

theorem mod_succ_of_ne (P m : Nat) (hP : 1 ≤ P) (h : m % P + 1 ≠ P) :
    (m + 1) % P = m % P + 1 := by
  have := Nat.mod_lt m (show 0 < P by omega)
  rw [← Nat.mod_add_mod, Nat.mod_eq_of_lt (by omega)]

theorem div_succ_of_eq (P m : Nat) (hP : 1 ≤ P) (h : m % P + 1 = P) :
    (m + 1) / P = m / P + 1 := by
  have h1 : m + 1 = P * (m / P + 1) := by
    have := Nat.div_add_mod m P
    rw [Nat.mul_add, Nat.mul_one]
    omega
  rw [h1, Nat.mul_div_cancel_left _ (by omega)]

theorem div_succ_of_ne (P m : Nat) (hP : 1 ≤ P) (h : m % P + 1 ≠ P) :
    (m + 1) / P = m / P := by
  have hlt := Nat.mod_lt m (show 0 < P by omega)
  have h1 : m + 1 = P * (m / P) + (m % P + 1) := by
    have := Nat.div_add_mod m P
    omega
  rw [h1, Nat.mul_add_div (by omega), Nat.div_eq_of_lt (show m % P + 1 < P by omega),
    Nat.add_zero]

theorem windowSum_append_of_le (es l : List Int) (a k : Nat) (h : a + k ≤ es.length) :
    windowSum (es ++ l) a k = windowSum es a k := by
  unfold windowSum
  rw [List.drop_append_of_le_length (by omega), List.take_append_of_le_length]
  rw [List.length_drop]
  omega

theorem windowSum_snoc (es : List Int) (x : Int) (a k : Nat) (h : a + k = es.length) :
    windowSum (es ++ [x]) a (k + 1) = windowSum es a k + x := by
  unfold windowSum
  have hl : (es.drop a).length = k := by
    rw [List.length_drop]
    omega
  rw [List.drop_append_of_le_length (by omega), List.take_of_length_le (by simp; omega),
    List.take_of_length_le (by omega)]
  simp

theorem windowSum_last (es : List Int) (x : Int) :
    windowSum (es ++ [x]) es.length 1 = x := by
  have := windowSum_snoc es x es.length 0 rfl
  simp [windowSum] at this ⊢

theorem readerLoop_snoc (e : Endian) (bufSize statsPeriod : Int) (evs : List RecvEvent)
    (ev : RecvEvent) (s s1 : ReaderState) (r : Option Int)
    (hrun : (readerLoop e bufSize statsPeriod s evs).status = Status.Running)
    (hstep : readerIter e bufSize statsPeriod (readerLoop e bufSize statsPeriod s evs).state ev
      = ReaderStep.cont s1 r) :
    readerLoop e bufSize statsPeriod s (evs ++ [ev])
      = { status := Status.Running, state := s1,
          recvCalls := (readerLoop e bufSize statsPeriod s evs).recvCalls + 1,
          outputs := (readerLoop e bufSize statsPeriod s evs).outputs ++ [r] } := by
  induction evs generalizing s with
  | nil =>
    simp only [readerLoop] at hstep
    simp [readerLoop, hstep]
  | cons x evs ih =>
    cases hx : readerIter e bufSize statsPeriod s x with
    | cont s2 r2 =>
      simp only [readerLoop, hx] at hrun hstep
      have := ih s2 hrun hstep
      simp [readerLoop, hx, this]
    | stop s2 =>
      simp [readerLoop, hx] at hrun
    | divByZero =>
      simp [readerLoop, hx] at hrun

theorem readerPacket_of_ne (statsPeriod : Int) (s : ReaderState) (el : Int)
    (h : s.packetsN ≠ statsPeriod) :
    readerPacket statsPeriod s el = ReaderStep.cont (countPhase s el) none := by
  simp [readerPacket, reportPhase, h]

theorem readerPacket_of_eq (statsPeriod : Int) (s : ReaderState) (el : Int)
    (h : s.packetsN = statsPeriod) (h0 : statsPeriod ≠ 0) :
    readerPacket statsPeriod s el
      = ReaderStep.cont (countPhase { packetsN := 0, totalNs := 0 } el)
          (some ((wrap64 (s.totalNs.tdiv statsPeriod)).tdiv nsecinus)) := by
  have h1 : s.packetsN ≠ 0 := by rw [h]; exact h0
  simp only [readerPacket, reportPhase, if_pos h, if_neg h1]
  rw [h]

theorem noOverflow_of_append (P : Nat) (es : List Int) (x : Int)
    (h : NoOverflow P (es ++ [x])) : NoOverflow P es := by
  intro i hi
  have h1 := h i (by simp; omega)
  have hle : i % P ≤ i := Nat.mod_le i P
  rwa [windowSum_append_of_le es [x] _ _ (by omega)] at h1

theorem expectedOutput_append (P : Nat) (es : List Int) (x : Int) (i : Nat)
    (hi : i ≤ es.length) : expectedOutput P (es ++ [x]) i = expectedOutput P es i := by
  unfold expectedOutput
  by_cases hc : 0 < i ∧ i % P = 0
  · have hPi : P ≤ i := by
      by_contra hlt
      have := Nat.mod_eq_of_lt (show i < P by omega)
      omega
    rw [if_pos hc, if_pos hc]
    unfold windowAverage
    rw [windowSum_append_of_le es [x] _ _ (by omega)]
  · rw [if_neg hc, if_neg hc]

/-- The invariant of the loop of the `Reader` over complete packets, from the initial
state: the counts, and (when no total overflows) the total and the averages printed. -/
theorem reader_invariant (e : Endian) (bufSize : Int) (P : Nat) (hP : 1 ≤ P)
    (hP32 : (P : Int) < 2 ^ 31) (hpos : 0 < bufSize) (evs : List RecvEvent)
    (hfull : ∀ ev ∈ evs, ev.readN = bufSize) :
    (readerLoop e bufSize P ReaderState.init evs).status = Status.Running ∧
    (readerLoop e bufSize P ReaderState.init evs).recvCalls = evs.length ∧
    (readerLoop e bufSize P ReaderState.init evs).state.packetsN
      = (if evs.length = 0 then 0 else (((evs.length - 1) % P + 1 : Nat) : Int)) ∧
    (readerLoop e bufSize P ReaderState.init evs).reports.length = (evs.length - 1) / P ∧
    (NoOverflow P (elapsedTimes e evs) →
      (readerLoop e bufSize P ReaderState.init evs).state.totalNs
        = (if evs.length = 0 then 0 else
            windowSum (elapsedTimes e evs) (evs.length - 1 - (evs.length - 1) % P)
              ((evs.length - 1) % P + 1)) ∧
      (readerLoop e bufSize P ReaderState.init evs).outputs
        = (List.range evs.length).map (expectedOutput P (elapsedTimes e evs))) := by
  induction evs using List.reverseRecOn with
  | nil =>
    simp [readerLoop, ReaderState.init, ReaderRun.reports]
  | append_singleton evs ev ih =>
    have hfull1 : ∀ x ∈ evs, x.readN = bufSize := fun x hx => hfull x (by simp [hx])
    have hev : ev.readN = bufSize := hfull ev (by simp)
    obtain ⟨hst, hcalls, hpk, hrep, hB⟩ := ih hfull1
    have hiter := readerIter_of_eq e bufSize P
      (readerLoop e bufSize P ReaderState.init evs).state ev hpos hev
    have hes : elapsedTimes e (evs ++ [ev]) = elapsedTimes e evs ++ [elapsedOf e ev] := by
      simp [elapsedTimes]
    have hlen : (elapsedTimes e evs).length = evs.length := by simp [elapsedTimes]
    have hP0 : (P : Int) ≠ 0 := by omega
    rw [hes]
    simp only [List.length_append, List.length_singleton, Nat.add_sub_cancel,
      Nat.add_one_ne_zero, if_false]
    by_cases hn : evs.length = 0
    · -- the first packet
      have hnil : evs = [] := List.length_eq_zero.mp hn
      subst hnil
      have hne : ReaderState.init.packetsN ≠ (P : Int) := by
        simp only [ReaderState.init]
        omega
      simp only [readerLoop] at hiter
      have hrun : readerLoop e bufSize P ReaderState.init ([] ++ [ev])
          = { status := Status.Running,
              state := countPhase ReaderState.init (elapsedOf e ev),
              recvCalls := 1, outputs := [none] } := by
        simp only [List.nil_append, readerLoop, hiter, readerPacket_of_ne _ _ _ hne]
      rw [hrun]
      refine ⟨rfl, rfl, ?_, ?_, ?_⟩
      · simp [countPhase, ReaderState.init, wrap32]
      · simp [ReaderRun.reports]
      · intro _
        have hw := wrap64_of_in _ (wrap64_in (ev.now - load64 e ev.buffer))
        simp [countPhase, ReaderState.init, elapsedTimes, windowSum, expectedOutput,
          elapsedOf, hw, List.range_succ]
    · rw [if_neg hn] at hpk
      have hmlt := Nat.mod_lt (evs.length - 1) (show 0 < P by omega)
      have hmle := Nat.mod_le (evs.length - 1) P
      by_cases hc : (evs.length - 1) % P + 1 = P
      · -- the packet that follows a full window
        have hmod : evs.length % P = 0 := by
          have := mod_succ_of_eq P (evs.length - 1) hc
          rwa [show evs.length - 1 + 1 = evs.length by omega] at this
        have hdiv : evs.length / P = (evs.length - 1) / P + 1 := by
          have := div_succ_of_eq P (evs.length - 1) hP hc
          rwa [show evs.length - 1 + 1 = evs.length by omega] at this
        have heq : (readerLoop e bufSize P ReaderState.init evs).state.packetsN = (P : Int) := by
          rw [hpk, hc]
        have hrun := readerLoop_snoc e bufSize P evs ev ReaderState.init _ _ hst
          (hiter.trans (readerPacket_of_eq _ _ _ heq hP0))
        rw [hrun]
        refine ⟨rfl, by simp [hcalls], ?_, ?_, ?_⟩
        · simp [countPhase, wrap32, hmod]
        · simp only [ReaderRun.reports] at hrep ⊢
          simp [List.filterMap_append, hrep, hdiv]
        · intro hno
          obtain ⟨hT, hO⟩ := hB (noOverflow_of_append P _ _ hno)
          rw [if_neg hn] at hT
          have hw := wrap64_of_in _ (wrap64_in (ev.now - load64 e ev.buffer))
          have hidx : evs.length - 1 - (evs.length - 1) % P = evs.length - P := by omega
          have hk : (evs.length - 1) % P + 1 = P := hc
          have hTin : InInt64 (readerLoop e bufSize P ReaderState.init evs).state.totalNs := by
            rw [hT]
            have := noOverflow_of_append P _ _ hno (evs.length - 1) (by rw [hlen]; omega)
            exact this
          constructor
          · simp only [countPhase, zero_add, hmod, Nat.sub_zero]
            rw [← hlen, windowSum_last]
            simp [elapsedOf, hw]
          · dsimp only
            rw [hO, List.range_succ, List.map_append]
            congr 1
            · apply List.map_congr_left
              intro i hi
              rw [expectedOutput_append P _ _ i (by rw [hlen]; exact (List.mem_range.mp hi).le)]
            · simp only [List.map_cons, List.map_nil, List.cons.injEq, and_true]
              rw [expectedOutput_append P _ _ _ (by rw [hlen])]
              unfold expectedOutput
              rw [if_pos ⟨by omega, hmod⟩]
              unfold windowAverage
              rw [wrap64_of_in _ (tdiv_in _ _ hTin (by omega)), hT, hidx, hk]
              rfl
      · -- a packet inside a window
        have hmod : evs.length % P = (evs.length - 1) % P + 1 := by
          have := mod_succ_of_ne P (evs.length - 1) hP hc
          rwa [show evs.length - 1 + 1 = evs.length by omega] at this
        have hdiv : evs.length / P = (evs.length - 1) / P := by
          have := div_succ_of_ne P (evs.length - 1) hP hc
          rwa [show evs.length - 1 + 1 = evs.length by omega] at this
        have hne : (readerLoop e bufSize P ReaderState.init evs).state.packetsN ≠ (P : Int) := by
          rw [hpk]
          intro h
          exact hc (by exact_mod_cast h)
        have hrun := readerLoop_snoc e bufSize P evs ev ReaderState.init _ _ hst
          (hiter.trans (readerPacket_of_ne _ _ _ hne))
        rw [hrun]
        refine ⟨rfl, by simp [hcalls], ?_, ?_, ?_⟩
        · simp only [countPhase, hpk, hmod]
          unfold wrap32
          push_cast
          omega
        · simp only [ReaderRun.reports] at hrep ⊢
          simp [List.filterMap_append, hrep, hdiv]
        · intro hno
          obtain ⟨hT, hO⟩ := hB (noOverflow_of_append P _ _ hno)
          rw [if_neg hn] at hT
          have hidx : evs.length - ((evs.length - 1) % P + 1)
              = evs.length - 1 - (evs.length - 1) % P := by omega
          have hsum := windowSum_snoc (elapsedTimes e evs) (elapsedOf e ev)
            (evs.length - 1 - (evs.length - 1) % P) ((evs.length - 1) % P + 1)
            (by rw [hlen]; omega)
          have hin := hno evs.length (by simp [hlen])
          rw [hmod, hidx, hsum] at hin
          constructor
          · simp only [countPhase, hT]
            rw [wrap64_of_in _ hin, hmod, hidx, hsum]
          · dsimp only
            rw [hO, List.range_succ, List.map_append]
            congr 1
            · apply List.map_congr_left
              intro i hi
              rw [expectedOutput_append P _ _ i (by rw [hlen]; exact (List.mem_range.mp hi).le)]
            · simp only [List.map_cons, List.map_nil, List.cons.injEq, and_true]
              unfold expectedOutput
              rw [if_neg (by omega)]

/-! ## C2: every report is the average of one window -/

/-- C2: let `P ≥ 1` be the stats period, and let the `Reader` process complete packets
whose window totals fit a `long`. Counting packets from 1, the report for window `k ≥ 1` is
printed while packet `k * P + 1` is processed (index `k * P` from 0) and its value is
`((e_((k-1)P+1) + ... + e_(kP)) / P) / 1000`; every report printed is one of these; and
after the last packet the counters hold the packets of the window then open, whose first
packet is the one that triggered the last report. -/
theorem report_is_window_average (e : Endian) (bufSize : Int) (P : Nat)
    (evs : List RecvEvent) (hP : 1 ≤ P) (hP32 : (P : Int) < 2 ^ 31) (hpos : 0 < bufSize)
    (hfull : ∀ ev ∈ evs, ev.readN = bufSize) (hno : NoOverflow P (elapsedTimes e evs)) :
    (readerLoop e bufSize P ReaderState.init evs).status = Status.Running ∧
    (∀ k, 1 ≤ k → k * P < evs.length →
      (readerLoop e bufSize P ReaderState.init evs).outputs[k * P]?
        = some (some (windowAverage P (elapsedTimes e evs) ((k - 1) * P)))) ∧
    (∀ i v, (readerLoop e bufSize P ReaderState.init evs).outputs[i]? = some (some v) →
      ∃ k, 1 ≤ k ∧ i = k * P ∧ v = windowAverage P (elapsedTimes e evs) ((k - 1) * P)) ∧
    (evs ≠ [] →
      (readerLoop e bufSize P ReaderState.init evs).state
        = { packetsN := (((evs.length - 1) % P + 1 : Nat) : Int),
            totalNs := windowSum (elapsedTimes e evs)
              (evs.length - 1 - (evs.length - 1) % P) ((evs.length - 1) % P + 1) }) := by
  obtain ⟨hst, _, hpk, _, hB⟩ := reader_invariant e bufSize P hP hP32 hpos evs hfull
  obtain ⟨hT, hO⟩ := hB hno
  have hget : ∀ i, i < evs.length →
      (readerLoop e bufSize P ReaderState.init evs).outputs[i]?
        = some (expectedOutput P (elapsedTimes e evs) i) := by
    intro i hi
    rw [hO, List.getElem?_map, List.getElem?_range hi]
    rfl
  refine ⟨hst, ?_, ?_, ?_⟩
  · intro k hk hlt
    rw [hget _ hlt]
    unfold expectedOutput
    have hpos' : 0 < k * P := Nat.mul_pos (by omega) (by omega)
    rw [if_pos ⟨hpos', Nat.mul_mod_left k P⟩, Nat.sub_mul, Nat.one_mul]
  · intro i v hv
    have hi : i < evs.length := by
      by_contra hge
      rw [hO, List.getElem?_eq_none (by simp; omega)] at hv
      simp at hv
    rw [hget i hi] at hv
    unfold expectedOutput at hv
    by_cases hc : 0 < i ∧ i % P = 0
    · rw [if_pos hc] at hv
      have hd : i / P * P = i := Nat.div_mul_cancel (Nat.dvd_of_mod_eq_zero hc.2)
      have hk : 1 ≤ i / P := by
        rcases Nat.eq_zero_or_pos (i / P) with h0 | h0
        · rw [h0, Nat.zero_mul] at hd
          exact absurd hd (Nat.ne_of_lt hc.1)
        · exact h0
      refine ⟨i / P, hk, hd.symm, ?_⟩
      rw [Nat.sub_mul, Nat.one_mul, hd]
      simp only [Option.some.injEq] at hv
      exact hv.symm
    · rw [if_neg hc] at hv
      simp at hv
  · intro hne
    have hn : evs.length ≠ 0 := fun h => hne (List.length_eq_zero.mp h)
    rw [if_neg hn] at hpk hT
    cases hs : (readerLoop e bufSize P ReaderState.init evs).state with
    | mk a b =>
      rw [hs] at hpk hT
      simp only at hpk hT
      rw [hpk, hT]

/-- C2 at a concrete run: period 2, five packets with elapsed times 7000, 9000, 3000,
5000, 1000 ns. The first report, printed with the third packet, is (7000 + 9000) / 2 / 1000
= 8; the second, printed with the fifth, is (3000 + 5000) / 2 / 1000 = 4. -/
theorem report_is_window_average_witness :
    (readerLoop Endian.little 64 2 ReaderState.init
        [echoed 1000 8000, echoed 2000 11000, echoed 3000 6000, echoed 4000 9000,
          echoed 5000 6000]).outputs[2 * 2]?
      = some (some 4) :=
  (report_is_window_average Endian.little 64 2
    [echoed 1000 8000, echoed 2000 11000, echoed 3000 6000, echoed 4000 9000,
      echoed 5000 6000]
    (by decide) (by decide) (by decide) (by decide)
    (by unfold NoOverflow; decide)).2.1 2 (by decide) (by decide)

/-! ## C3: the number of reports -/

/-- C3, as stated, fails: with `statsPeriod = 10` no report has been printed once ten
complete packets are processed, and with `statsPeriod = 1` none after the first packet,
where the claim expects `10 / 10 = 1` and `1 / 1 = 1` reports. -/
theorem report_count_counterexample :
    (readerLoop Endian.little 64 10 ReaderState.init
      (List.replicate 10 (echoed 1000 8000))).reports.length ≠ 10 / 10 ∧
    (readerLoop Endian.little 64 1 ReaderState.init [echoed 1000 8000]).reports.length
      ≠ 1 / 1 := by
  decide

/-- C3, amended: for `P ≥ 1`, once the `Reader` has processed `n` complete packets it is
still running and has printed exactly `(n - 1) / P` reports (none for `n = 0`): the report
of a window is printed when the packet after its `P`-th packet is processed. -/
theorem report_count (e : Endian) (bufSize : Int) (P : Nat) (evs : List RecvEvent)
    (hP : 1 ≤ P) (hP32 : (P : Int) < 2 ^ 31) (hpos : 0 < bufSize)
    (hfull : ∀ ev ∈ evs, ev.readN = bufSize) :
    (readerLoop e bufSize P ReaderState.init evs).status = Status.Running ∧
    (readerLoop e bufSize P ReaderState.init evs).recvCalls = evs.length ∧
    (readerLoop e bufSize P ReaderState.init evs).reports.length = (evs.length - 1) / P := by
  obtain ⟨hst, hcalls, _, hrep, _⟩ := reader_invariant e bufSize P hP hP32 hpos evs hfull
  exact ⟨hst, hcalls, hrep⟩

/-- C3 amended, at a concrete run: period 10, eleven packets, one report. -/
theorem report_count_witness :
    (readerLoop Endian.little 64 10 ReaderState.init
      (List.replicate 11 (echoed 1000 8000))).reports.length = (11 - 1) / 10 :=
  (report_count Endian.little 64 10 (List.replicate 11 (echoed 1000 8000))
    (by decide) (by decide) (by decide) (by decide)).2.2

end Lbstats
